import Mathlib

/-!
Shallow embedding of the multi-currency ledger and trade-settlement engine of the
crypto paper-trading backend (routes/trading.js, routes/currency.js, and the
SQLite schema in the database initialisation module).

Amounts and prices are modelled as exact rationals.  The four tables (users,
balances, portfolio, transactions) are lists of rows; the SQL upsert statements
(ON CONFLICT(user_id, currency) DO UPDATE in trading.js, and the MySQL spelling
ON DUPLICATE KEY UPDATE used by the exchange handler) are modelled by their
upsert semantics: update the matching row if one exists, insert otherwise.
External collaborators (the price oracle, the forex rate table and the currency
catalog) are parameters of the operations; each operation additionally reports
how many external price/rate fetches it issued.
-/

namespace Ledger

/-- JavaScript String.toLowerCase restricted to the ASCII codes used for
currency strings (characterwise Char.toLower). -/
def lowerStr (s : String) : String := ⟨s.data.map Char.toLower⟩

/-- JavaScript String.toUpperCase restricted to the ASCII codes used for
symbol strings (characterwise Char.toUpper). -/
def upperStr (s : String) : String := ⟨s.data.map Char.toUpper⟩

/-- Row of the users table: id plus the legacy single-currency balance column. -/
structure UserRow where
  id : Nat
  balance : ℚ
deriving DecidableEq, Repr

/-- Row of the balances table: one row per (user_id, currency). -/
structure BalanceRow where
  userId : Nat
  currency : String
  amount : ℚ
deriving DecidableEq, Repr

/-- Row of the portfolio table: one row per (user_id, symbol, currency). -/
structure HoldingRow where
  userId : Nat
  symbol : String
  coinId : String
  name : String
  amount : ℚ
  averageBuyPrice : ℚ
  currency : String
deriving DecidableEq, Repr

/-- The CHECK(type IN ...) constraint of the transactions table. -/
inductive TxType where
  | deposit | buy | sell | exchange
deriving DecidableEq, Repr

/-- Row of the transactions table.  The schema declares the nullable columns
from_currency, to_currency and exchange_rate in addition to the nine columns
that the route handlers insert. -/
structure TxRow where
  userId : Nat
  symbol : String
  coinId : String
  name : String
  type : TxType
  amount : ℚ
  price : ℚ
  total : ℚ
  currency : String
  fromCurrency : Option String
  toCurrency : Option String
  exchangeRate : Option ℚ
deriving DecidableEq, Repr

/-- The persistent state: the four tables. -/
structure DB where
  users : List UserRow
  balances : List BalanceRow
  portfolio : List HoldingRow
  transactions : List TxRow
deriving DecidableEq, Repr

/-- SELECT amount FROM balances WHERE user_id = ? AND currency = ?  (first row). -/
def findBalance (db : DB) (u : Nat) (c : String) : Option BalanceRow :=
  db.balances.find? (fun b => b.userId == u && b.currency == c)

/-- SELECT balance FROM users WHERE id = ?  (first row). -/
def findUser (db : DB) (u : Nat) : Option UserRow :=
  db.users.find? (fun r => r.id == u)

/-- SELECT * FROM portfolio WHERE user_id = ? AND symbol = ? AND currency = ?. -/
def findHolding (db : DB) (u : Nat) (sym c : String) : Option HoldingRow :=
  db.portfolio.find? (fun h => h.userId == u && h.symbol == sym && h.currency == c)

/-- getBalanceInCurrency from routes/trading.js: the balances-row amount for
(user, currency), a missing row read as 0, plus the legacy users.balance column
when the currency is usd (a missing user also read as 0 by the optional
chaining user?.balance || 0). -/
def getBalanceInCurrency (db : DB) (userId : Nat) (currency : String) : ℚ :=
  let c := lowerStr currency
  let rowAmount := ((findBalance db userId c).map BalanceRow.amount).getD 0
  if c = "usd" then
    rowAmount + ((findUser db userId).map UserRow.balance).getD 0
  else
    rowAmount

/-- INSERT INTO balances (user_id, currency, amount) VALUES (u, c, delta)
ON CONFLICT(user_id, currency) DO UPDATE SET amount = amount + delta
(all call sites insert the same signed delta that the update applies;
the exchange handler writes the same statement in MySQL syntax). -/
def upsertBalance (db : DB) (u : Nat) (c : String) (delta : ℚ) : DB :=
  match findBalance db u c with
  | some _ =>
    { db with balances := db.balances.map (fun (b : BalanceRow) =>
        if b.userId == u && b.currency == c then { b with amount := b.amount + delta } else b) }
  | none => { db with balances := db.balances ++ [⟨u, c, delta⟩] }

/-- The error taxonomy of the settlement routes. -/
inductive TradeError where
  | invalidParams
  | unsupportedCurrency
  | priceUnavailable
  | insufficientBalance
  | insufficientHoldings
deriving DecidableEq, Repr

/-- Outcome of one settlement operation: the response, the resulting store
state, and the number of external price/rate fetches that were issued. -/
structure OpResult (α : Type) where
  res : Except TradeError α
  db : DB
  fetches : Nat

/-- POST /api/trading/topup: the deposit operation.  sup is the currency
catalog predicate (isCurrencySupported). -/
def topup (sup : String → Bool) (db : DB) (u : Nat) (currency : String) (amount : ℚ) :
    OpResult Unit :=
  if amount ≤ 0 then ⟨.error .invalidParams, db, 0⟩
  else if ¬ sup currency then ⟨.error .unsupportedCurrency, db, 0⟩
  else
    let c := lowerStr currency
    let db1 := upsertBalance db u c amount
    let tx : TxRow := ⟨u, upperStr currency, c, upperStr currency ++ " Deposit",
      .deposit, amount, 1, amount, c, none, none, none⟩
    ⟨.ok (), { db1 with transactions := db1.transactions ++ [tx] }, 0⟩

/-- POST /api/trading/buy.  oracle is getCryptoPrice (None = fetch failure). -/
def buy (sup : String → Bool) (oracle : String → String → Option ℚ) (db : DB) (u : Nat)
    (coinId symbol name : String) (amount : ℚ) (currency : String) : OpResult Unit :=
  if coinId = "" ∨ symbol = "" ∨ name = "" ∨ amount ≤ 0 then ⟨.error .invalidParams, db, 0⟩
  else if ¬ sup currency then ⟨.error .unsupportedCurrency, db, 0⟩
  else
    match oracle coinId currency with
    | none => ⟨.error .priceUnavailable, db, 1⟩
    | some currentPrice =>
      let totalCost := amount * currentPrice
      let userBalance := getBalanceInCurrency db u currency
      if userBalance < totalCost then ⟨.error .insufficientBalance, db, 1⟩
      else
        let c := lowerStr currency
        let sym := upperStr symbol
        let db1 := upsertBalance db u c (-totalCost)
        let db2 :=
          match findHolding db1 u sym c with
          | some holding =>
            let newAmount := holding.amount + amount
            let newAvgPrice :=
              (holding.averageBuyPrice * holding.amount + currentPrice * amount) / newAmount
            { db1 with portfolio := db1.portfolio.map (fun (h : HoldingRow) =>
                if h.userId == u && h.symbol == sym && h.currency == c then
                  { h with amount := newAmount, averageBuyPrice := newAvgPrice } else h) }
          | none =>
            { db1 with portfolio :=
                db1.portfolio ++ [(⟨u, sym, coinId, name, amount, currentPrice, c⟩ : HoldingRow)] }
        let tx : TxRow := ⟨u, sym, coinId, name, .buy, amount, currentPrice, totalCost,
          c, none, none, none⟩
        ⟨.ok (), { db2 with transactions := db2.transactions ++ [tx] }, 1⟩

/-- The dust threshold 0.00000001 of the sell handler. -/
def dustThreshold : ℚ := 1 / 100000000

/-- POST /api/trading/sell.  The holdings check precedes the price fetch. -/
def sell (sup : String → Bool) (oracle : String → String → Option ℚ) (db : DB) (u : Nat)
    (coinId symbol : String) (amount : ℚ) (currency : String) : OpResult Unit :=
  if coinId = "" ∨ symbol = "" ∨ amount ≤ 0 then ⟨.error .invalidParams, db, 0⟩
  else if ¬ sup currency then ⟨.error .unsupportedCurrency, db, 0⟩
  else
    let c := lowerStr currency
    let sym := upperStr symbol
    match findHolding db u sym c with
    | none => ⟨.error .insufficientHoldings, db, 0⟩
    | some holding =>
      if holding.amount < amount then ⟨.error .insufficientHoldings, db, 0⟩
      else
        match oracle coinId currency with
        | none => ⟨.error .priceUnavailable, db, 1⟩
        | some currentPrice =>
          let totalValue := amount * currentPrice
          let db1 := upsertBalance db u c totalValue
          let newAmount := holding.amount - amount
          let db2 :=
            if dustThreshold < newAmount then
              { db1 with portfolio := db1.portfolio.map (fun (h : HoldingRow) =>
                  if h.userId == u && h.symbol == sym && h.currency == c then
                    { h with amount := newAmount } else h) }
            else
              { db1 with portfolio := db1.portfolio.filter (fun (h : HoldingRow) =>
                  !(h.userId == u && h.symbol == sym && h.currency == c)) }
          let tx : TxRow := ⟨u, sym, coinId, holding.name, .sell, amount, currentPrice,
            totalValue, c, none, none, none⟩
          ⟨.ok (), { db2 with transactions := db2.transactions ++ [tx] }, 1⟩

/-- POST /api/currency/exchange.  ratesOpt models getExchangeRates('usd'):
none is a failed fetch; a returned table maps a currency to its usd-relative
rate, none/0 entries being treated as unsupported (the JavaScript falsy check
!fromRate || !toRate).  The rate fetch is issued before the support check. -/
def exchange (ratesOpt : Option (String → Option ℚ)) (db : DB) (u : Nat)
    (fromCurrency toCurrency : String) (amount : ℚ) : OpResult (ℚ × ℚ) :=
  if fromCurrency = "" ∨ toCurrency = "" ∨ amount ≤ 0 then ⟨.error .invalidParams, db, 0⟩
  else
    let fromCurr := lowerStr fromCurrency
    let toCurr := lowerStr toCurrency
    match ratesOpt with
    | none => ⟨.error .priceUnavailable, db, 1⟩
    | some rates =>
      match rates fromCurr, rates toCurr with
      | some fromRate, some toRate =>
        if fromRate = 0 ∨ toRate = 0 then ⟨.error .unsupportedCurrency, db, 1⟩
        else
          let exchangeRate := toRate / fromRate
          let convertedAmount := amount * exchangeRate
          let rowAmount := ((findBalance db u fromCurr).map BalanceRow.amount).getD 0
          let availableBalance :=
            if fromCurr = "usd" then
              rowAmount + ((findUser db u).map UserRow.balance).getD 0
            else rowAmount
          if availableBalance < amount then ⟨.error .insufficientBalance, db, 1⟩
          else
            let db1 := upsertBalance db u fromCurr (-amount)
            let db2 := upsertBalance db1 u toCurr convertedAmount
            let tx : TxRow := ⟨u, upperStr fromCurr ++ "-" ++ upperStr toCurr, "exchange",
              "Currency Exchange: " ++ upperStr fromCurr ++ " to " ++ upperStr toCurr,
              .exchange, amount, exchangeRate, convertedAmount, toCurr, none, none, none⟩
            ⟨.ok (exchangeRate, convertedAmount),
              { db2 with transactions := db2.transactions ++ [tx] }, 1⟩
      | _, _ => ⟨.error .unsupportedCurrency, db, 1⟩

/-- JavaScript object assignment m[k] = v on a string-keyed map, modelled as an
insertion-ordered association list. -/
def setAssoc (m : List (String × ℚ)) (k : String) (v : ℚ) : List (String × ℚ) :=
  match m.find? (fun p => p.1 == k) with
  | some _ => m.map (fun p => if p.1 == k then (p.1, v) else p)
  | none => m ++ [(k, v)]

/-- JavaScript m[k] = (m[k] || 0) + v on a string-keyed map. -/
def addAssoc (m : List (String × ℚ)) (k : String) (v : ℚ) : List (String × ℚ) :=
  match m.find? (fun p => p.1 == k) with
  | some _ => m.map (fun p => if p.1 == k then (p.1, p.2 + v) else p)
  | none => m ++ [(k, v)]

/-- JavaScript m[k] || 0. -/
def getAssoc (m : List (String × ℚ)) (k : String) : ℚ :=
  ((m.find? (fun p => p.1 == k)).map Prod.snd).getD 0

/-- One entry of the GET /api/trading/stats response. -/
structure StatsEntry where
  cashBalance : ℚ
  cryptoValue : ℚ
  totalValue : ℚ
  invested : ℚ
  profitLoss : ℚ
  profitLossPercent : ℚ
deriving DecidableEq, Repr

/-- holding.currency || 'usd' in the stats loop. -/
def holdingCurrency (h : HoldingRow) : String :=
  if h.currency = "" then "usd" else h.currency

/-- GET /api/trading/stats: cash balances per currency (balances rows, plus the
legacy balance folded into usd when positive), invested and crypto value per
currency accumulated over the user's holdings (a failed price fetch skips only
that holding's crypto-value contribution), and one entry per currency that has
a key in the cash map or in the crypto-value map. -/
def computeStats (oracle : String → String → Option ℚ) (db : DB) (u : Nat) :
    List (String × StatsEntry) :=
  let userBalances := db.balances.filter (fun b => b.userId == u)
  let cash0 := userBalances.foldl (fun m b => setAssoc m b.currency b.amount) []
  let legacy := ((findUser db u).map UserRow.balance).getD 0
  let cashBalances := if 0 < legacy then addAssoc cash0 "usd" legacy else cash0
  let userHoldings := db.portfolio.filter (fun h => h.userId == u)
  let investedByCurrency := userHoldings.foldl
    (fun m h => addAssoc m (holdingCurrency h) (h.amount * h.averageBuyPrice)) []
  let cryptoByCurrency := userHoldings.foldl
    (fun m h =>
      match oracle h.coinId (holdingCurrency h) with
      | some price => addAssoc m (holdingCurrency h) (h.amount * price)
      | none => m) []
  let allCurrencies := (cashBalances.map Prod.fst ++ cryptoByCurrency.map Prod.fst).dedup
  allCurrencies.map (fun c =>
    let cash := getAssoc cashBalances c
    let crypto := getAssoc cryptoByCurrency c
    let invested := getAssoc investedByCurrency c
    let profitLoss := crypto - invested
    (c, ⟨cash, crypto, cash + crypto, invested, profitLoss,
      if 0 < invested then profitLoss / invested * 100 else 0⟩))

/-! Concrete fixtures used to evaluate the operations on explicit inputs. -/

/-- A currency catalog accepting every code. -/
def supAll : String → Bool := fun _ => true

/-- A price oracle quoting 5000 for every asset. -/
def oracle5000 : String → String → Option ℚ := fun _ _ => some 5000

/-- A price oracle quoting 50000 for every asset. -/
def oracle50000 : String → String → Option ℚ := fun _ _ => some 50000

/-- A price oracle quoting 60000 for every asset. -/
def oracle60000 : String → String → Option ℚ := fun _ _ => some 60000

/-- A price oracle whose every fetch fails. -/
def oracleFail : String → String → Option ℚ := fun _ _ => none

/-- A price oracle quoting 2 for every asset. -/
def oracle2 : String → String → Option ℚ := fun _ _ => some 2

/-- A usd-based forex table: usd at rate 1, eur at rate 9/10, nothing else. -/
def ratesUsdEur : String → Option ℚ :=
  fun c => if c = "usd" then some 1 else if c = "eur" then some (9/10) else none

/-- One user (id 1) holding a legacy balance of 10000 and no other rows. -/
def dbLegacyUser : DB := ⟨[⟨1, 10000⟩], [], [], []⟩

/-- One user (id 1) with a usd balances row of 1000000 and no legacy balance. -/
def dbRichUser : DB := ⟨[⟨1, 0⟩], [⟨1, "usd", 1000000⟩], [], []⟩

/-- One user (id 1) with a usd balances row of 1000 and no legacy balance. -/
def dbUsd1000 : DB := ⟨[⟨1, 0⟩], [⟨1, "usd", 1000⟩], [], []⟩

/-- One user (id 1) holding 2 BTC (basis 50000, usd) and nothing else. -/
def dbBtcHolder : DB := ⟨[⟨1, 0⟩], [], [⟨1, "BTC", "bitcoin", "Bitcoin", 2, 50000, "usd"⟩], []⟩

/-- One user (id 1) whose only row is an eur holding of 1 ETH at basis 100. -/
def dbEthHolder : DB := ⟨[⟨1, 0⟩], [], [⟨1, "ETH", "ethereum", "Ethereum", 1, 100, "eur"⟩], []⟩

/-- An empty store. -/
def dbEmpty : DB := ⟨[], [], [], []⟩

end Ledger

namespace Ledger

/-! Helper lemmas about the embedding, shared by the claim theorems. -/

@[simp] theorem lowerStr_usd : lowerStr "usd" = "usd" := by decide

@[simp] theorem lowerStr_eur : lowerStr "eur" = "eur" := by decide

@[simp] theorem lowerStr_xxx : lowerStr "xxx" = "xxx" := by decide

@[simp] theorem upperStr_btc : upperStr "BTC" = "BTC" := by decide

@[simp] theorem upperStr_usd : upperStr "usd" = "USD" := by decide

@[simp] theorem upperStr_eur : upperStr "eur" = "EUR" := by decide

theorem find?_map_of_pred_eq {α : Type} (p : α → Bool) (f : α → α)
    (hf : ∀ x, p (f x) = p x) (l : List α) :
    (l.map f).find? p = (l.find? p).map f := by
  rw [List.find?_map]
  have hpf : p ∘ f = p := funext hf
  rw [hpf]

@[simp] theorem upsertBalance_users (db : DB) (u : Nat) (c : String) (δ : ℚ) :
    (upsertBalance db u c δ).users = db.users := by
  unfold upsertBalance
  split <;> rfl

@[simp] theorem upsertBalance_portfolio (db : DB) (u : Nat) (c : String) (δ : ℚ) :
    (upsertBalance db u c δ).portfolio = db.portfolio := by
  unfold upsertBalance
  split <;> rfl

@[simp] theorem upsertBalance_transactions (db : DB) (u : Nat) (c : String) (δ : ℚ) :
    (upsertBalance db u c δ).transactions = db.transactions := by
  unfold upsertBalance
  split <;> rfl

theorem findBalance_upsert_self (db : DB) (u : Nat) (c : String) (δ : ℚ) :
    ((findBalance (upsertBalance db u c δ) u c).map BalanceRow.amount).getD 0
      = ((findBalance db u c).map BalanceRow.amount).getD 0 + δ := by
  unfold upsertBalance findBalance
  cases hf : db.balances.find? (fun b => b.userId == u && b.currency == c) with
  | none =>
    simp only [hf, List.find?_append, Option.none_or, List.find?_singleton]
    simp
  | some b =>
    have hp : ∀ x : BalanceRow,
        ((if x.userId == u && x.currency == c then
            { x with amount := x.amount + δ } else x).userId == u
          && (if x.userId == u && x.currency == c then
            { x with amount := x.amount + δ } else x).currency == c)
        = (x.userId == u && x.currency == c) := by
      intro x
      by_cases hx : x.userId == u && x.currency == c <;> simp [hx]
    simp only [hf]
    rw [find?_map_of_pred_eq _ _ hp, hf]
    have hb := List.find?_some hf
    simp only [Bool.and_eq_true, beq_iff_eq] at hb
    simp [hb.1, hb.2]

theorem findBalance_upsert_other (db : DB) (u : Nat) (c : String) (δ : ℚ)
    (u' : Nat) (c' : String) (h : ¬ (u' = u ∧ c' = c)) :
    findBalance (upsertBalance db u c δ) u' c' = findBalance db u' c' := by
  unfold upsertBalance findBalance
  cases hf : db.balances.find? (fun b => b.userId == u && b.currency == c) with
  | none =>
    simp only [hf, List.find?_append, List.find?_singleton]
    have hnew : ((BalanceRow.mk u c δ).userId == u' && (BalanceRow.mk u c δ).currency == c')
        = false := by
      by_cases hu : u = u'
      · by_cases hc : c = c'
        · exact absurd ⟨hu.symm, hc.symm⟩ h
        · simp [hc]
      · simp [hu]
    simp [hnew]
  | some b =>
    have hp : ∀ x : BalanceRow,
        ((if x.userId == u && x.currency == c then
            { x with amount := x.amount + δ } else x).userId == u'
          && (if x.userId == u && x.currency == c then
            { x with amount := x.amount + δ } else x).currency == c')
        = (x.userId == u' && x.currency == c') := by
      intro x
      by_cases hx : x.userId == u && x.currency == c <;> simp [hx]
    simp only [hf]
    rw [find?_map_of_pred_eq _ _ hp]
    cases hg : db.balances.find? (fun b => b.userId == u' && b.currency == c') with
    | none => simp
    | some b' =>
      have hb' := List.find?_some hg
      simp only [Bool.and_eq_true, beq_iff_eq] at hb'
      have hbne : ¬ (b'.userId = u ∧ b'.currency = c) := by
        rintro ⟨hu, hc⟩
        exact h ⟨hb'.1 ▸ hu, hb'.2 ▸ hc⟩
      simp [hbne]

theorem getBalanceInCurrency_congr (db db' : DB) (u : Nat) (cur : String)
    (hb : db'.balances = db.balances) (hu : db'.users = db.users) :
    getBalanceInCurrency db' u cur = getBalanceInCurrency db u cur := by
  unfold getBalanceInCurrency findBalance findUser
  rw [hb, hu]

@[simp] theorem ne_bitcoin_empty : ¬ ("bitcoin" : String) = "" := by decide

@[simp] theorem ne_btc_empty : ¬ ("BTC" : String) = "" := by decide

@[simp] theorem ne_bitcoinName_empty : ¬ ("Bitcoin" : String) = "" := by decide

@[simp] theorem ne_usd_empty : ¬ ("usd" : String) = "" := by decide

@[simp] theorem ne_eur_empty : ¬ ("eur" : String) = "" := by decide

@[simp] theorem ne_xxx_empty : ¬ ("xxx" : String) = "" := by decide

@[simp] theorem ne_eur_usd : ¬ ("eur" : String) = "usd" := by decide

@[simp] theorem ne_usd_eur : ¬ ("usd" : String) = "eur" := by decide

@[simp] theorem ne_xxx_usd : ¬ ("xxx" : String) = "usd" := by decide

@[simp] theorem ne_xxx_eur : ¬ ("xxx" : String) = "eur" := by decide

theorem getBalanceInCurrency_upsert_lower (db : DB) (u : Nat) (cur : String) (δ : ℚ) :
    getBalanceInCurrency (upsertBalance db u (lowerStr cur) δ) u cur
      = getBalanceInCurrency db u cur + δ := by
  have hself := findBalance_upsert_self db u (lowerStr cur) δ
  have huser : findUser (upsertBalance db u (lowerStr cur) δ) u = findUser db u := by
    unfold findUser
    rw [upsertBalance_users]
  simp only [getBalanceInCurrency]
  rw [hself, huser]
  split <;> ring

@[simp] theorem findHolding_upsert (db : DB) (u : Nat) (c : String) (δ : ℚ)
    (u' : Nat) (sym c' : String) :
    findHolding (upsertBalance db u c δ) u' sym c' = findHolding db u' sym c' := by
  unfold findHolding
  rw [upsertBalance_portfolio]

theorem find?_filter_not {α : Type} (p : α → Bool) (l : List α) :
    (l.filter (fun x => !(p x))).find? p = none := by
  rw [List.find?_eq_none]
  intro x hx
  have hq := (List.mem_filter.mp hx).2
  simp only [Bool.not_eq_true'] at hq
  simp [hq]

theorem buyUpdate_pred_eq (u : Nat) (sym c : String) (A B : ℚ) (g : HoldingRow) :
    ((if g.userId == u && g.symbol == sym && g.currency == c then
        { g with amount := A, averageBuyPrice := B } else g).userId == u
      && (if g.userId == u && g.symbol == sym && g.currency == c then
        { g with amount := A, averageBuyPrice := B } else g).symbol == sym
      && (if g.userId == u && g.symbol == sym && g.currency == c then
        { g with amount := A, averageBuyPrice := B } else g).currency == c)
    = (g.userId == u && g.symbol == sym && g.currency == c) := by
  by_cases hg : g.userId == u && g.symbol == sym && g.currency == c <;> simp [hg]

theorem amountUpdate_pred_eq (u : Nat) (sym c : String) (A : ℚ) (g : HoldingRow) :
    ((if g.userId == u && g.symbol == sym && g.currency == c then
        { g with amount := A } else g).userId == u
      && (if g.userId == u && g.symbol == sym && g.currency == c then
        { g with amount := A } else g).symbol == sym
      && (if g.userId == u && g.symbol == sym && g.currency == c then
        { g with amount := A } else g).currency == c)
    = (g.userId == u && g.symbol == sym && g.currency == c) := by
  by_cases hg : g.userId == u && g.symbol == sym && g.currency == c <;> simp [hg]

theorem buy_success_no_holding (sup : String → Bool) (o : String → String → Option ℚ)
    (db : DB) (u : Nat) (coinId symbol name currency : String) (a p : ℚ)
    (hval : ¬ (coinId = "" ∨ symbol = "" ∨ name = "" ∨ a ≤ 0))
    (hsup : sup currency = true)
    (ho : o coinId currency = some p)
    (hnoh : findHolding db u (upperStr symbol) (lowerStr currency) = none)
    (hb : ¬ getBalanceInCurrency db u currency < a * p) :
    buy sup o db u coinId symbol name a currency
      = ⟨.ok (),
          { users := db.users,
            balances := (upsertBalance db u (lowerStr currency) (-(a * p))).balances,
            portfolio := db.portfolio
              ++ [⟨u, upperStr symbol, coinId, name, a, p, lowerStr currency⟩],
            transactions := db.transactions
              ++ [⟨u, upperStr symbol, coinId, name, .buy, a, p, a * p,
                  lowerStr currency, none, none, none⟩] },
          1⟩ := by
  simp only [buy, ho, if_neg hval, hsup, not_true, if_false, if_neg hb, findHolding_upsert,
    hnoh]
  simp

theorem buy_success_with_holding (sup : String → Bool) (o : String → String → Option ℚ)
    (db : DB) (u : Nat) (coinId symbol name currency : String) (a p : ℚ) (h : HoldingRow)
    (hval : ¬ (coinId = "" ∨ symbol = "" ∨ name = "" ∨ a ≤ 0))
    (hsup : sup currency = true)
    (ho : o coinId currency = some p)
    (hh : findHolding db u (upperStr symbol) (lowerStr currency) = some h)
    (hb : ¬ getBalanceInCurrency db u currency < a * p) :
    buy sup o db u coinId symbol name a currency
      = ⟨.ok (),
          { users := db.users,
            balances := (upsertBalance db u (lowerStr currency) (-(a * p))).balances,
            portfolio := db.portfolio.map (fun g =>
              if g.userId == u && g.symbol == upperStr symbol
                  && g.currency == lowerStr currency then
                { g with
                  amount := h.amount + a
                  averageBuyPrice :=
                    (h.averageBuyPrice * h.amount + p * a) / (h.amount + a) }
              else g),
            transactions := db.transactions
              ++ [⟨u, upperStr symbol, coinId, name, .buy, a, p, a * p,
                  lowerStr currency, none, none, none⟩] },
          1⟩ := by
  simp only [buy, ho, if_neg hval, hsup, not_true, if_false, if_neg hb, findHolding_upsert,
    hh]
  simp

theorem sell_success (sup : String → Bool) (o : String → String → Option ℚ)
    (db : DB) (u : Nat) (coinId symbol currency : String) (a p : ℚ) (h : HoldingRow)
    (hval : ¬ (coinId = "" ∨ symbol = "" ∨ a ≤ 0))
    (hsup : sup currency = true)
    (hh : findHolding db u (upperStr symbol) (lowerStr currency) = some h)
    (hamt : ¬ h.amount < a)
    (ho : o coinId currency = some p) :
    sell sup o db u coinId symbol a currency
      = ⟨.ok (),
          { users := db.users,
            balances := (upsertBalance db u (lowerStr currency) (a * p)).balances,
            portfolio :=
              if dustThreshold < h.amount - a then
                db.portfolio.map (fun g =>
                  if g.userId == u && g.symbol == upperStr symbol
                      && g.currency == lowerStr currency then
                    { g with amount := h.amount - a } else g)
              else
                db.portfolio.filter (fun g =>
                  !(g.userId == u && g.symbol == upperStr symbol
                    && g.currency == lowerStr currency)),
            transactions := db.transactions
              ++ [⟨u, upperStr symbol, coinId, h.name, .sell, a, p, a * p,
                  lowerStr currency, none, none, none⟩] },
          1⟩ := by
  simp only [sell, if_neg hval, hsup, not_true, if_false, hh, if_neg hamt, ho]
  split <;> simp

theorem exchange_success (rates : String → Option ℚ) (db : DB) (u : Nat)
    (fromC toC : String) (amount fr tr : ℚ)
    (hval : ¬ (fromC = "" ∨ toC = "" ∨ amount ≤ 0))
    (hfr : rates (lowerStr fromC) = some fr) (htr : rates (lowerStr toC) = some tr)
    (hnz : ¬ (fr = 0 ∨ tr = 0))
    (hbal : ¬ (if lowerStr fromC = "usd" then
        ((findBalance db u (lowerStr fromC)).map BalanceRow.amount).getD 0
          + ((findUser db u).map UserRow.balance).getD 0
      else ((findBalance db u (lowerStr fromC)).map BalanceRow.amount).getD 0) < amount) :
    exchange (some rates) db u fromC toC amount
      = ⟨.ok (tr / fr, amount * (tr / fr)),
          { users := db.users,
            balances := (upsertBalance (upsertBalance db u (lowerStr fromC) (-amount))
              u (lowerStr toC) (amount * (tr / fr))).balances,
            portfolio := db.portfolio,
            transactions := db.transactions ++
              [⟨u, upperStr (lowerStr fromC) ++ "-" ++ upperStr (lowerStr toC), "exchange",
                "Currency Exchange: " ++ upperStr (lowerStr fromC) ++ " to "
                  ++ upperStr (lowerStr toC),
                .exchange, amount, tr / fr, amount * (tr / fr), lowerStr toC,
                none, none, none⟩] },
          1⟩ := by
  simp only [exchange, if_neg hval, hfr, htr, if_neg hnz, if_neg hbal]
  simp

theorem keys_subset_setAssoc (m : List (String × ℚ)) (k' : String) (v : ℚ) (k : String)
    (hk : k ∈ m.map Prod.fst) : k ∈ (setAssoc m k' v).map Prod.fst := by
  unfold setAssoc
  cases hf : m.find? (fun p => p.1 == k') with
  | some q =>
    have hkeys : (m.map (fun p => if p.1 == k' then (p.1, v) else p)).map Prod.fst
        = m.map Prod.fst := by
      rw [List.map_map]
      apply List.map_congr_left
      intro x _
      simp only [Function.comp_apply]
      split <;> rfl
    rw [hkeys]
    exact hk
  | none =>
    rw [List.map_append]
    exact List.mem_append_left _ hk

theorem keys_subset_addAssoc (m : List (String × ℚ)) (k' : String) (v : ℚ) (k : String)
    (hk : k ∈ m.map Prod.fst) : k ∈ (addAssoc m k' v).map Prod.fst := by
  unfold addAssoc
  cases hf : m.find? (fun p => p.1 == k') with
  | some q =>
    have hkeys : (m.map (fun p => if p.1 == k' then (p.1, p.2 + v) else p)).map Prod.fst
        = m.map Prod.fst := by
      rw [List.map_map]
      apply List.map_congr_left
      intro x _
      simp only [Function.comp_apply]
      split <;> rfl
    rw [hkeys]
    exact hk
  | none =>
    rw [List.map_append]
    exact List.mem_append_left _ hk

theorem self_mem_setAssoc (m : List (String × ℚ)) (k : String) (v : ℚ) :
    k ∈ (setAssoc m k v).map Prod.fst := by
  unfold setAssoc
  cases hf : m.find? (fun p => p.1 == k) with
  | some q =>
    have hq := List.find?_some hf
    simp only [beq_iff_eq] at hq
    have hqm := List.mem_of_find?_eq_some hf
    have hkeys : (m.map (fun p => if p.1 == k then (p.1, v) else p)).map Prod.fst
        = m.map Prod.fst := by
      rw [List.map_map]
      apply List.map_congr_left
      intro x _
      simp only [Function.comp_apply]
      split <;> rfl
    rw [hkeys, ← hq]
    exact List.mem_map_of_mem Prod.fst hqm
  | none =>
    rw [List.map_append]
    apply List.mem_append_right
    simp

theorem self_mem_addAssoc (m : List (String × ℚ)) (k : String) (v : ℚ) :
    k ∈ (addAssoc m k v).map Prod.fst := by
  unfold addAssoc
  cases hf : m.find? (fun p => p.1 == k) with
  | some q =>
    have hq := List.find?_some hf
    simp only [beq_iff_eq] at hq
    have hqm := List.mem_of_find?_eq_some hf
    have hkeys : (m.map (fun p => if p.1 == k then (p.1, p.2 + v) else p)).map Prod.fst
        = m.map Prod.fst := by
      rw [List.map_map]
      apply List.map_congr_left
      intro x _
      simp only [Function.comp_apply]
      split <;> rfl
    rw [hkeys, ← hq]
    exact List.mem_map_of_mem Prod.fst hqm
  | none =>
    rw [List.map_append]
    apply List.mem_append_right
    simp

theorem keys_foldl_mono {β : Type} (step : List (String × ℚ) → β → List (String × ℚ))
    (hmono : ∀ m b k, k ∈ m.map Prod.fst → k ∈ (step m b).map Prod.fst) :
    ∀ (l : List β) (m : List (String × ℚ)) (k : String),
      k ∈ m.map Prod.fst → k ∈ (l.foldl step m).map Prod.fst := by
  intro l
  induction l with
  | nil =>
    intro m k hk
    exact hk
  | cons b l ih =>
    intro m k hk
    exact ih _ _ (hmono m b k hk)

theorem keys_foldl_of_mem {β : Type} (step : List (String × ℚ) → β → List (String × ℚ))
    (hmono : ∀ m b k, k ∈ m.map Prod.fst → k ∈ (step m b).map Prod.fst)
    (b : β) (k : String) (hself : ∀ m, k ∈ (step m b).map Prod.fst) :
    ∀ (l : List β), b ∈ l → ∀ m, k ∈ (l.foldl step m).map Prod.fst := by
  intro l
  induction l with
  | nil =>
    intro hb
    cases hb
  | cons x l ih =>
    intro hb m
    rcases List.mem_cons.mp hb with hbx | hbl
    · rw [List.foldl_cons]
      subst hbx
      exact keys_foldl_mono step hmono l _ k (hself m)
    · exact ih hbl (step m x)

theorem exists_mem_map_pair {γ : Type} (f : String → γ) (l : List String) (k : String)
    (hk : k ∈ l) : ∃ e ∈ l.map (fun c => (c, f c)), e.1 = k :=
  ⟨(k, f k), List.mem_map_of_mem _ hk, rfl⟩

/-- C1: the no-negative-balance invariant fails on the code.  A buy whose cost
is covered only by the legacy balance passes the sufficiency check (which adds
users.balance for usd) yet debits only the balances table, creating a row with
amount -5000; an exchange debiting a currency with no balances row likewise
creates a row with amount -1000.  Both operations report success. -/
theorem buy_and_exchange_create_negative_balance_rows :
    (buy supAll oracle5000 dbLegacyUser 1 "bitcoin" "BTC" "Bitcoin" 1 "usd").res = .ok ()
    ∧ (buy supAll oracle5000 dbLegacyUser 1 "bitcoin" "BTC" "Bitcoin" 1 "usd").db.balances
        = [⟨1, "usd", -5000⟩]
    ∧ (exchange (some ratesUsdEur) dbLegacyUser 1 "usd" "eur" 1000).res = .ok (9/10, 900)
    ∧ (exchange (some ratesUsdEur) dbLegacyUser 1 "usd" "eur" 1000).db.balances
        = [⟨1, "usd", -1000⟩, ⟨1, "eur", 900⟩] := by
  refine ⟨?_, ?_, ?_, ?_⟩ <;>
    · simp [buy, exchange, supAll, oracle5000, ratesUsdEur, dbLegacyUser,
        getBalanceInCurrency, findBalance, findUser, findHolding, upsertBalance]
      norm_num

/-- C4 counterexample: an exchange with fromCurrency = toCurrency = usd and a
positive amount is not a pure no-op: on a user with only a legacy balance it
creates a usd balances row (with amount 0), refuting that no row is created. -/
theorem exchange_same_currency_creates_row :
    (exchange (some ratesUsdEur) dbLegacyUser 1 "usd" "usd" 100).res = .ok (1, 100)
    ∧ (exchange (some ratesUsdEur) dbLegacyUser 1 "usd" "usd" 100).db.balances
        = [⟨1, "usd", 0⟩] := by
  constructor <;>
    · simp [exchange, ratesUsdEur, dbLegacyUser, findBalance, findUser, upsertBalance]
      norm_num

/-- C5: a settled exchange appends exactly one record of type exchange, but the
dedicated from_currency, to_currency and exchange_rate columns of the
transactions table remain null: the rate is stored in the generic price column
and the two currencies only inside the symbol and name strings. -/
theorem exchange_record_lacks_dedicated_fields :
    (exchange (some ratesUsdEur) dbUsd1000 1 "usd" "eur" 1000).res = .ok (9/10, 900)
    ∧ (exchange (some ratesUsdEur) dbUsd1000 1 "usd" "eur" 1000).db.transactions
        = [⟨1, "USD-EUR", "exchange", "Currency Exchange: USD to EUR", .exchange,
            1000, 9/10, 900, "eur", none, none, none⟩] := by
  constructor <;>
    · simp [exchange, ratesUsdEur, dbUsd1000, findBalance, findUser, upsertBalance]
      norm_num

/-- C6 counterexample: an exchange whose toCurrency is unsupported still issues
the rate fetch first — the unsupported-currency error is produced with one
fetch already made, not zero. -/
theorem exchange_unsupported_after_fetch :
    (exchange (some ratesUsdEur) dbLegacyUser 1 "usd" "xxx" 100).res
        = .error .unsupportedCurrency
    ∧ (exchange (some ratesUsdEur) dbLegacyUser 1 "usd" "xxx" 100).fetches = 1 := by
  constructor <;>
    · simp [exchange, ratesUsdEur, dbLegacyUser, findBalance, findUser, upsertBalance]
      norm_num

/-- C7 counterexample: a userId that resolves to no user does not fail with
NotFoundError — the resolver totals a missing row and a missing user as 0 and
returns 0. -/
theorem effectiveBalance_missing_user_returns_zero :
    getBalanceInCurrency dbEmpty 42 "usd" = 0
    ∧ getBalanceInCurrency dbEmpty 42 "eur" = 0 := by
  constructor <;> simp [getBalanceInCurrency, dbEmpty, findBalance, findUser]

/-- C8 counterexample: a currency present only through Holding rows gets no
stats entry when every price fetch for those holdings fails — the user holds
1 ETH in eur, the oracle fails, and the stats map is empty instead of
containing an eur entry. -/
theorem stats_entry_missing_on_total_fetch_failure :
    computeStats oracleFail dbEthHolder 1 = [] := by
  simp [computeStats, oracleFail, dbEthHolder, findUser, addAssoc, setAssoc,
    holdingCurrency, getAssoc]

/-- C2: buying a1 units at unit price p1 and then a2 units at unit price p2
(a1, a2 > 0), starting from no holding for the (symbol, currency) pair and with
both buys accepted, leaves the holding with amount a1 + a2 and cost basis
exactly (a1*p1 + a2*p2)/(a1 + a2) — the weighted average is computed with the
pre-update amount a1 as the weight.  Exact rational equality implies the 1e-9
relative tolerance of the claim. -/
theorem buy_twice_weighted_average
    (sup : String → Bool) (o1 o2 : String → String → Option ℚ) (db : DB) (u : Nat)
    (coinId symbol name currency : String) (a1 p1 a2 p2 : ℚ)
    (hc : coinId ≠ "") (hs : symbol ≠ "") (hn : name ≠ "")
    (ha1 : 0 < a1) (ha2 : 0 < a2)
    (hsup : sup currency = true)
    (ho1 : o1 coinId currency = some p1) (ho2 : o2 coinId currency = some p2)
    (hnoh : findHolding db u (upperStr symbol) (lowerStr currency) = none)
    (hb1 : ¬ getBalanceInCurrency db u currency < a1 * p1)
    (hb2 : ¬ getBalanceInCurrency db u currency - a1 * p1 < a2 * p2) :
    (buy sup o1 db u coinId symbol name a1 currency).res = .ok ()
    ∧ (buy sup o2 (buy sup o1 db u coinId symbol name a1 currency).db
        u coinId symbol name a2 currency).res = .ok ()
    ∧ findHolding (buy sup o2 (buy sup o1 db u coinId symbol name a1 currency).db
          u coinId symbol name a2 currency).db u (upperStr symbol) (lowerStr currency)
        = some ⟨u, upperStr symbol, coinId, name, a1 + a2,
            (a1 * p1 + a2 * p2) / (a1 + a2), lowerStr currency⟩ := by
  have hval1 : ¬ (coinId = "" ∨ symbol = "" ∨ name = "" ∨ a1 ≤ 0) := by
    push_neg
    exact ⟨hc, hs, hn, ha1⟩
  have hval2 : ¬ (coinId = "" ∨ symbol = "" ∨ name = "" ∨ a2 ≤ 0) := by
    push_neg
    exact ⟨hc, hs, hn, ha2⟩
  have e1 := buy_success_no_holding sup o1 db u coinId symbol name currency a1 p1
    hval1 hsup ho1 hnoh hb1
  have hnoh' : db.portfolio.find?
      (fun h => h.userId == u && h.symbol == upperStr symbol
        && h.currency == lowerStr currency) = none := hnoh
  have hh2 : findHolding (buy sup o1 db u coinId symbol name a1 currency).db
      u (upperStr symbol) (lowerStr currency)
      = some ⟨u, upperStr symbol, coinId, name, a1, p1, lowerStr currency⟩ := by
    rw [e1]
    unfold findHolding
    simp [List.find?_append, hnoh']
  have hbal2 : ¬ getBalanceInCurrency (buy sup o1 db u coinId symbol name a1 currency).db
      u currency < a2 * p2 := by
    have hcongr : getBalanceInCurrency (buy sup o1 db u coinId symbol name a1 currency).db
        u currency
        = getBalanceInCurrency (upsertBalance db u (lowerStr currency) (-(a1 * p1)))
          u currency := by
      apply getBalanceInCurrency_congr
      · rw [e1]
      · rw [e1]
        simp
    rw [hcongr, getBalanceInCurrency_upsert_lower]
    rw [← sub_eq_add_neg]
    exact hb2
  have e2 := buy_success_with_holding sup o2
    (buy sup o1 db u coinId symbol name a1 currency).db u coinId symbol name currency a2 p2
    ⟨u, upperStr symbol, coinId, name, a1, p1, lowerStr currency⟩
    hval2 hsup ho2 hh2 hbal2
  refine ⟨by rw [e1], by rw [e2], ?_⟩
  rw [e2]
  unfold findHolding
  have hvP : (buy sup o1 db u coinId symbol name a1 currency).db.portfolio
      = db.portfolio ++ [⟨u, upperStr symbol, coinId, name, a1, p1, lowerStr currency⟩] := by
    rw [e1]
  simp only [hvP]
  rw [find?_map_of_pred_eq _ _ (buyUpdate_pred_eq u (upperStr symbol) (lowerStr currency) _ _),
    List.find?_append, hnoh']
  simp only [Option.none_or, List.find?_singleton]
  rw [if_pos (by simp)]
  have hnum : p1 * a1 + p2 * a2 = a1 * p1 + a2 * p2 := by ring
  simp [hnum]

/-- Witness for C2: with a usd row of 1000000, buying 2 BTC at 50000 and then
2 BTC at 60000 leaves the holding at amount 4 with basis 55000. -/
theorem buy_twice_weighted_average_witness :
    (buy supAll oracle60000
        (buy supAll oracle50000 dbRichUser 1 "bitcoin" "BTC" "Bitcoin" 2 "usd").db
        1 "bitcoin" "BTC" "Bitcoin" 2 "usd").res = .ok ()
    ∧ findHolding (buy supAll oracle60000
        (buy supAll oracle50000 dbRichUser 1 "bitcoin" "BTC" "Bitcoin" 2 "usd").db
        1 "bitcoin" "BTC" "Bitcoin" 2 "usd").db 1 "BTC" "usd"
      = some ⟨1, "BTC", "bitcoin", "Bitcoin", 4, 55000, "usd"⟩ := by
  have h := buy_twice_weighted_average supAll oracle50000 oracle60000 dbRichUser 1
    "bitcoin" "BTC" "Bitcoin" "usd" 2 50000 2 60000
    (by decide) (by decide) (by decide) (by norm_num) (by norm_num) rfl rfl rfl rfl
    (by simp [getBalanceInCurrency, dbRichUser, findBalance, findUser]
        norm_num)
    (by simp [getBalanceInCurrency, dbRichUser, findBalance, findUser]
        norm_num)
  refine ⟨h.2.1, ?_⟩
  have h3 := h.2.2
  rw [upperStr_btc, lowerStr_usd] at h3
  have hdiv : ((2:ℚ) * 50000 + 2 * 60000) / (2 + 2) = 55000 := by norm_num
  have hsum : (2:ℚ) + 2 = 4 := by norm_num
  rw [hdiv, hsum] at h3
  exact h3

/-- C3: a sell requesting more than the held amount (or with no holding row at
all) fails with InsufficientHoldingsError, leaving every table unchanged and
issuing no price fetch — no partial effect; and whatever the outcome of a sell,
the cost basis of the (symbol, currency) holding is unchanged whenever the row
still exists afterwards. -/
theorem sell_overdraw_rejected_and_basis_preserved
    (sup : String → Bool) (oracle : String → String → Option ℚ) (db : DB) (u : Nat)
    (coinId symbol currency : String) (amount : ℚ)
    (hc : coinId ≠ "") (hs : symbol ≠ "") (ha : 0 < amount)
    (hsup : sup currency = true) :
    ((∀ h, findHolding db u (upperStr symbol) (lowerStr currency) = some h →
        h.amount < amount) →
      sell sup oracle db u coinId symbol amount currency
        = ⟨.error .insufficientHoldings, db, 0⟩)
    ∧ (∀ h g, findHolding db u (upperStr symbol) (lowerStr currency) = some h →
        findHolding (sell sup oracle db u coinId symbol amount currency).db
          u (upperStr symbol) (lowerStr currency) = some g →
        g.averageBuyPrice = h.averageBuyPrice) := by
  have hval : ¬ (coinId = "" ∨ symbol = "" ∨ amount ≤ 0) := by
    push_neg
    exact ⟨hc, hs, ha⟩
  constructor
  · intro hover
    cases hh : findHolding db u (upperStr symbol) (lowerStr currency) with
    | none => simp only [sell, if_neg hval, hsup, not_true, if_false, hh]
    | some h =>
      have hlt := hover h hh
      simp only [sell, if_neg hval, hsup, not_true, if_false, hh, if_pos hlt]
  · intro h g hh hg
    by_cases hlt : h.amount < amount
    · have hsell : sell sup oracle db u coinId symbol amount currency
          = ⟨.error .insufficientHoldings, db, 0⟩ := by
        simp only [sell, if_neg hval, hsup, not_true, if_false, hh, if_pos hlt]
      rw [hsell] at hg
      dsimp only at hg
      rw [hh] at hg
      injection hg with hg'
      rw [← hg']
    · cases ho : oracle coinId currency with
      | none =>
        have hsell : sell sup oracle db u coinId symbol amount currency
            = ⟨.error .priceUnavailable, db, 1⟩ := by
          simp only [sell, if_neg hval, hsup, not_true, if_false, hh, if_neg hlt, ho]
        rw [hsell] at hg
        dsimp only at hg
        rw [hh] at hg
        injection hg with hg'
        rw [← hg']
      | some p =>
        have hsell := sell_success sup oracle db u coinId symbol currency amount p h
          hval hsup hh hlt ho
        rw [hsell] at hg
        dsimp only at hg
        unfold findHolding at hg hh
        by_cases hdust : dustThreshold < h.amount - amount
        · rw [if_pos hdust,
            find?_map_of_pred_eq _ _
              (amountUpdate_pred_eq u (upperStr symbol) (lowerStr currency) _),
            hh] at hg
          rw [Option.map_some'] at hg
          injection hg with hg'
          rw [← hg']
          have hph := List.find?_some hh
          simp [hph]
        · rw [if_neg hdust, find?_filter_not] at hg
          cases hg

/-- Witness for C3: on a user holding 2 BTC in usd, selling 5 BTC is rejected
with InsufficientHoldingsError, the store is unchanged, no fetch is issued;
and after selling 1 BTC (price 50000) the surviving row keeps its basis. -/
theorem sell_overdraw_rejected_and_basis_preserved_witness :
    sell supAll oracle50000 dbBtcHolder 1 "bitcoin" "BTC" 5 "usd"
      = ⟨.error .insufficientHoldings, dbBtcHolder, 0⟩
    ∧ ∀ g, findHolding (sell supAll oracle50000 dbBtcHolder 1 "bitcoin" "BTC" 1 "usd").db
        1 (upperStr "BTC") (lowerStr "usd") = some g →
        g.averageBuyPrice = 50000 := by
  constructor
  · exact (sell_overdraw_rejected_and_basis_preserved supAll oracle50000 dbBtcHolder 1
      "bitcoin" "BTC" "usd" 5 (by decide) (by decide) (by norm_num) rfl).1
      (by intro h hh
          have : h = ⟨1, "BTC", "bitcoin", "Bitcoin", 2, 50000, "usd"⟩ := by
            simp [findHolding, dbBtcHolder] at hh
            exact hh.symm
          rw [this]
          norm_num)
  · intro g hg
    exact (sell_overdraw_rejected_and_basis_preserved supAll oracle50000 dbBtcHolder 1
      "bitcoin" "BTC" "usd" 1 (by decide) (by decide) (by norm_num) rfl).2
      ⟨1, "BTC", "bitcoin", "Bitcoin", 2, 50000, "usd"⟩ g
      (by simp [findHolding, dbBtcHolder]) hg

/-- C9: dust handling of sell.  For a sell accepted against holding h: if the
remaining amount h.amount - amount is at or below the 1e-8 dust threshold the
row is deleted; otherwise it is retained with the decreased amount (basis
untouched); and the invariant that every portfolio row stays strictly above
the dust threshold is preserved by every sell. -/
theorem sell_dust_handling
    (sup : String → Bool) (oracle : String → String → Option ℚ) (db : DB) (u : Nat)
    (coinId symbol currency : String) (amount p : ℚ) (h : HoldingRow)
    (hc : coinId ≠ "") (hs : symbol ≠ "") (ha : 0 < amount) (hsup : sup currency = true)
    (hh : findHolding db u (upperStr symbol) (lowerStr currency) = some h)
    (hamt : ¬ h.amount < amount)
    (ho : oracle coinId currency = some p) :
    (h.amount - amount ≤ dustThreshold →
      findHolding (sell sup oracle db u coinId symbol amount currency).db
        u (upperStr symbol) (lowerStr currency) = none)
    ∧ (dustThreshold < h.amount - amount →
      findHolding (sell sup oracle db u coinId symbol amount currency).db
        u (upperStr symbol) (lowerStr currency)
        = some { h with amount := h.amount - amount })
    ∧ ((∀ g ∈ db.portfolio, dustThreshold < g.amount) →
      ∀ g ∈ (sell sup oracle db u coinId symbol amount currency).db.portfolio,
        dustThreshold < g.amount) := by
  have hval : ¬ (coinId = "" ∨ symbol = "" ∨ amount ≤ 0) := by
    push_neg
    exact ⟨hc, hs, ha⟩
  have hsell := sell_success sup oracle db u coinId symbol currency amount p h
    hval hsup hh hamt ho
  have hh' : db.portfolio.find?
      (fun g => g.userId == u && g.symbol == upperStr symbol
        && g.currency == lowerStr currency) = some h := hh
  refine ⟨?_, ?_, ?_⟩
  · intro hdust
    rw [hsell]
    unfold findHolding
    dsimp only
    rw [if_neg (not_lt.mpr hdust), find?_filter_not]
  · intro hdust
    rw [hsell]
    unfold findHolding
    dsimp only
    rw [if_pos hdust,
      find?_map_of_pred_eq _ _
        (amountUpdate_pred_eq u (upperStr symbol) (lowerStr currency) _),
      hh', Option.map_some']
    have hph := List.find?_some hh'
    simp [hph]
  · intro hinv g hgmem
    rw [hsell] at hgmem
    dsimp only at hgmem
    by_cases hdust : dustThreshold < h.amount - amount
    · rw [if_pos hdust] at hgmem
      obtain ⟨x, hx, hfx⟩ := List.mem_map.mp hgmem
      by_cases hpx : (x.userId == u && x.symbol == upperStr symbol
          && x.currency == lowerStr currency) = true
      · rw [if_pos hpx] at hfx
        rw [← hfx]
        exact hdust
      · rw [if_neg hpx] at hfx
        rw [← hfx]
        exact hinv x hx
    · rw [if_neg hdust] at hgmem
      exact hinv g (List.mem_filter.mp hgmem).1

/-- Witness for C9: selling the full 2 BTC of a 2-BTC holding (price 50000)
drives the remaining amount to 0 ≤ 1e-8, so the row is deleted. -/
theorem sell_dust_handling_witness :
    findHolding (sell supAll oracle50000 dbBtcHolder 1 "bitcoin" "BTC" 2 "usd").db
      1 (upperStr "BTC") (lowerStr "usd") = none :=
  (sell_dust_handling supAll oracle50000 dbBtcHolder 1 "bitcoin" "BTC" "usd" 2 50000
    ⟨1, "BTC", "bitcoin", "Bitcoin", 2, 50000, "usd"⟩
    (by decide) (by decide) (by norm_num) rfl
    (by simp [findHolding, dbBtcHolder]) (by norm_num) rfl).1
    (by norm_num [dustThreshold])

/-- C4 amended: an exchange with fromCurrency = toCurrency and a positive
amount is not short-circuited — it still requires sufficient effective balance
(failing with InsufficientBalanceError otherwise) and still performs the
debit/credit pair (which may create a zero-amount row and logs a record) —
but whenever it succeeds it reports rate 1, returns the amount unchanged, and
the amount of every balances row, read as a (user, currency) lookup with a
missing row as 0, is exactly as before. -/
theorem exchange_same_currency_net_zero
    (rates : String → Option ℚ) (db : DB) (u : Nat) (cur : String) (amount r : ℚ)
    (hne : cur ≠ "") (ha : 0 < amount)
    (hr : rates (lowerStr cur) = some r) (hr0 : r ≠ 0) :
    (∀ rate conv, (exchange (some rates) db u cur cur amount).res = .ok (rate, conv) →
      rate = 1 ∧ conv = amount)
    ∧ (∀ u' c', ((findBalance (exchange (some rates) db u cur cur amount).db u' c').map
          BalanceRow.amount).getD 0
        = ((findBalance db u' c').map BalanceRow.amount).getD 0) := by
  have hval : ¬ (cur = "" ∨ cur = "" ∨ amount ≤ 0) := by
    push_neg
    exact ⟨hne, hne, ha⟩
  have hnz : ¬ (r = 0 ∨ r = 0) := by simp [hr0]
  have hrr : r / r = 1 := div_self hr0
  by_cases hbal : (if lowerStr cur = "usd" then
      ((findBalance db u (lowerStr cur)).map BalanceRow.amount).getD 0
        + ((findUser db u).map UserRow.balance).getD 0
    else ((findBalance db u (lowerStr cur)).map BalanceRow.amount).getD 0) < amount
  · have hex : exchange (some rates) db u cur cur amount
        = ⟨.error .insufficientBalance, db, 1⟩ := by
      simp only [exchange, if_neg hval, hr, if_neg hnz, if_pos hbal]
    constructor
    · intro rate conv hok
      rw [hex] at hok
      cases hok
    · intro u' c'
      rw [hex]
  · have hex := exchange_success rates db u cur cur amount r r hval hr hr hnz hbal
    constructor
    · intro rate conv hok
      rw [hex] at hok
      dsimp only at hok
      simp only [Except.ok.injEq, Prod.mk.injEq] at hok
      obtain ⟨hrate, hconv⟩ := hok
      constructor
      · rw [← hrate, hrr]
      · rw [← hconv, hrr, mul_one]
    · intro u' c'
      rw [hex]
      dsimp only
      by_cases hu : u' = u ∧ c' = lowerStr cur
      · obtain ⟨hu1, hu2⟩ := hu
        subst hu1
        subst hu2
        have key : ((findBalance (upsertBalance (upsertBalance db u' (lowerStr cur) (-amount))
              u' (lowerStr cur) (amount * (r / r))) u' (lowerStr cur)).map
            BalanceRow.amount).getD 0
            = ((findBalance db u' (lowerStr cur)).map BalanceRow.amount).getD 0 := by
          rw [findBalance_upsert_self, findBalance_upsert_self, hrr, mul_one]
          ring
        exact key
      · have key : findBalance (upsertBalance (upsertBalance db u (lowerStr cur) (-amount))
            u (lowerStr cur) (amount * (r / r))) u' c' = findBalance db u' c' := by
          rw [findBalance_upsert_other _ _ _ _ _ _ hu, findBalance_upsert_other _ _ _ _ _ _ hu]
        exact congrArg (fun o => ((o.map BalanceRow.amount)).getD 0) key

/-- Witness for C4: exchanging 100 usd to usd on a legacy-only user leaves the
(1, usd) balances lookup at its previous value 0. -/
theorem exchange_same_currency_net_zero_witness :
    ((findBalance (exchange (some ratesUsdEur) dbLegacyUser 1 "usd" "usd" 100).db 1 "usd").map
        BalanceRow.amount).getD 0
      = ((findBalance dbLegacyUser 1 "usd").map BalanceRow.amount).getD 0 :=
  (exchange_same_currency_net_zero ratesUsdEur dbLegacyUser 1 "usd" 100 1
    (by decide) (by norm_num) (by simp [ratesUsdEur]) (by norm_num)).2 1 "usd"

/-- C6 amended: deposit, buy and sell reject a non-positive amount and an
unsupported currency before any price fetch and any store write (zero fetches,
store unchanged); exchange rejects a non-positive amount before the rate fetch,
but its unsupported-currency check is evaluated against the fetched rate table,
i.e. after one rate fetch has been issued (though still before any store
write). -/
theorem validation_before_external_calls
    (sup : String → Bool) (oracle : String → String → Option ℚ)
    (rates : String → Option ℚ) (db : DB) (u : Nat)
    (coinId symbol name fromC toC currency : String) (amount : ℚ) :
    (amount ≤ 0 → topup sup db u currency amount = ⟨.error .invalidParams, db, 0⟩)
    ∧ (0 < amount → sup currency = false →
        topup sup db u currency amount = ⟨.error .unsupportedCurrency, db, 0⟩)
    ∧ (amount ≤ 0 →
        buy sup oracle db u coinId symbol name amount currency
          = ⟨.error .invalidParams, db, 0⟩)
    ∧ (¬ (coinId = "" ∨ symbol = "" ∨ name = "" ∨ amount ≤ 0) → sup currency = false →
        buy sup oracle db u coinId symbol name amount currency
          = ⟨.error .unsupportedCurrency, db, 0⟩)
    ∧ (amount ≤ 0 →
        sell sup oracle db u coinId symbol amount currency
          = ⟨.error .invalidParams, db, 0⟩)
    ∧ (¬ (coinId = "" ∨ symbol = "" ∨ amount ≤ 0) → sup currency = false →
        sell sup oracle db u coinId symbol amount currency
          = ⟨.error .unsupportedCurrency, db, 0⟩)
    ∧ (amount ≤ 0 →
        exchange (some rates) db u fromC toC amount = ⟨.error .invalidParams, db, 0⟩)
    ∧ (¬ (fromC = "" ∨ toC = "" ∨ amount ≤ 0) →
        (rates (lowerStr fromC) = none ∨ rates (lowerStr fromC) = some 0
          ∨ rates (lowerStr toC) = none ∨ rates (lowerStr toC) = some 0) →
        exchange (some rates) db u fromC toC amount
          = ⟨.error .unsupportedCurrency, db, 1⟩) := by
  refine ⟨?_, ?_, ?_, ?_, ?_, ?_, ?_, ?_⟩
  · intro hamt
    simp [topup, hamt]
  · intro hamt hsupf
    simp [topup, hsupf, not_le.mpr hamt]
  · intro hamt
    simp [buy, hamt]
  · intro hval hsupf
    simp [buy, hval, hsupf]
  · intro hamt
    simp [sell, hamt]
  · intro hval hsupf
    simp [sell, hval, hsupf]
  · intro hamt
    simp [exchange, hamt]
  · intro hval hbad
    rcases hbad with hb | hb | hb | hb
    · cases hx : rates (lowerStr toC) <;> simp [exchange, hval, hb, hx]
    · cases hx : rates (lowerStr toC) <;> simp [exchange, hval, hb, hx]
    · cases hx : rates (lowerStr fromC) <;> simp [exchange, hval, hb, hx]
    · cases hx : rates (lowerStr fromC) <;> simp [exchange, hval, hb, hx]

/-- Witness for C6: a deposit of -5 fails as invalid with zero fetches and no
mutation, and an exchange of 100 usd to the unsupported xxx fails as
unsupported with one rate fetch already issued and no mutation. -/
theorem validation_before_external_calls_witness :
    topup supAll dbLegacyUser 1 "usd" (-5) = ⟨.error .invalidParams, dbLegacyUser, 0⟩
    ∧ exchange (some ratesUsdEur) dbLegacyUser 1 "usd" "xxx" 100
      = ⟨.error .unsupportedCurrency, dbLegacyUser, 1⟩ := by
  constructor
  · exact (validation_before_external_calls supAll oracle50000 ratesUsdEur dbLegacyUser 1
      "bitcoin" "BTC" "Bitcoin" "usd" "xxx" "usd" (-5)).1 (by norm_num)
  · exact (validation_before_external_calls supAll oracle50000 ratesUsdEur dbLegacyUser 1
      "bitcoin" "BTC" "Bitcoin" "usd" "xxx" "usd" 100).2.2.2.2.2.2.2
      (by push_neg
          exact ⟨by decide, by decide, by norm_num⟩)
      (by right
          right
          left
          simp [ratesUsdEur])

/-- C7 amended: effectiveBalance returns the balances-row amount (a missing row
as zero) plus the legacy balance exactly when the currency is usd; a userId
resolving to no user contributes a legacy balance of 0 instead of raising
NotFoundError. -/
theorem effectiveBalance_components (db : DB) (u : Nat) (cur : String) :
    ((∀ r ∈ db.users, r.id ≠ u) →
      getBalanceInCurrency db u cur
        = ((findBalance db u (lowerStr cur)).map BalanceRow.amount).getD 0)
    ∧ (∀ r, findUser db u = some r →
      getBalanceInCurrency db u cur
        = ((findBalance db u (lowerStr cur)).map BalanceRow.amount).getD 0
          + (if lowerStr cur = "usd" then r.balance else 0)) := by
  constructor
  · intro hnone
    have hfu : findUser db u = none := by
      unfold findUser
      rw [List.find?_eq_none]
      intro x hx
      simp [hnone x hx]
    by_cases hc : lowerStr cur = "usd" <;> simp [getBalanceInCurrency, hfu, hc]
  · intro r hr
    by_cases hc : lowerStr cur = "usd" <;> simp [getBalanceInCurrency, hr, hc]

/-- Witness for C7: for the legacy user the resolver adds the legacy 10000 to
the (missing, hence 0) usd row. -/
theorem effectiveBalance_components_witness :
    getBalanceInCurrency dbLegacyUser 1 "usd"
      = ((findBalance dbLegacyUser 1 (lowerStr "usd")).map BalanceRow.amount).getD 0
        + (if lowerStr "usd" = "usd" then (10000 : ℚ) else 0) :=
  (effectiveBalance_components dbLegacyUser 1 "usd").2 ⟨1, 10000⟩
    (by simp [findUser, dbLegacyUser])

/-- C8 amended: computeStats never aborts on a failed price fetch and produces
an entry for every currency carrying a CurrencyBalance row of the user and for
every currency of a Holding row of the user whose price fetch succeeds; a
failing fetch only omits that holding's contribution (a currency present only
through holdings whose fetches all fail receives no entry — see the
counterexample). -/
theorem stats_entries_cover (oracle : String → String → Option ℚ) (db : DB) (u : Nat) :
    (∀ b ∈ db.balances, b.userId = u →
      ∃ e ∈ computeStats oracle db u, e.1 = b.currency)
    ∧ (0 < ((findUser db u).map UserRow.balance).getD 0 →
      ∃ e ∈ computeStats oracle db u, e.1 = "usd")
    ∧ (∀ h ∈ db.portfolio, h.userId = u →
      ∀ p, oracle h.coinId (holdingCurrency h) = some p →
      ∃ e ∈ computeStats oracle db u, e.1 = holdingCurrency h) := by
  refine ⟨?_, ?_, ?_⟩
  · intro b hb hbu
    simp only [computeStats]
    apply exists_mem_map_pair
    rw [List.mem_dedup, List.mem_append]
    left
    have hincash : b.currency ∈ ((db.balances.filter (fun x => x.userId == u)).foldl
        (fun m x => setAssoc m x.currency x.amount) []).map Prod.fst := by
      exact keys_foldl_of_mem _
        (fun m x k hk => keys_subset_setAssoc m x.currency x.amount k hk)
        b b.currency (fun m => self_mem_setAssoc m b.currency b.amount)
        _ (List.mem_filter.mpr ⟨hb, by simp [hbu]⟩) []
    split
    · exact keys_subset_addAssoc _ _ _ _ hincash
    · exact hincash
  · intro hleg
    simp only [computeStats]
    apply exists_mem_map_pair
    rw [List.mem_dedup, List.mem_append]
    left
    rw [if_pos hleg]
    exact self_mem_addAssoc _ _ _
  · intro h hh hhu p hp
    simp only [computeStats]
    apply exists_mem_map_pair
    rw [List.mem_dedup, List.mem_append]
    right
    refine keys_foldl_of_mem _ ?_ h (holdingCurrency h) ?_
      _ (List.mem_filter.mpr ⟨hh, by simp [hhu]⟩) []
    · intro m x k hk
      cases hx : oracle x.coinId (holdingCurrency x) with
      | none => simpa [hx] using hk
      | some q =>
        simp only [hx]
        exact keys_subset_addAssoc _ _ _ _ hk
    · intro m
      simp only [hp]
      exact self_mem_addAssoc _ _ _

/-- Witness for C8: with a working oracle the eur holding yields an eur entry. -/
theorem stats_entries_cover_witness :
    ∃ e ∈ computeStats oracle2 dbEthHolder 1, e.1 = "eur" := by
  have h := (stats_entries_cover oracle2 dbEthHolder 1).2.2
    ⟨1, "ETH", "ethereum", "Ethereum", 1, 100, "eur"⟩ (by simp [dbEthHolder]) rfl 2 rfl
  simpa [holdingCurrency] using h

/-- C10: none of the four settlement operations ever modifies the users table —
in particular the legacy balance column is invariant under deposit, buy, sell
and exchange, on success as well as on every failure path. -/
theorem core_ops_preserve_users (sup : String → Bool)
    (oracle : String → String → Option ℚ) (ratesOpt : Option (String → Option ℚ))
    (db : DB) (u : Nat) (coinId symbol name fromC toC currency : String) (amount : ℚ) :
    (topup sup db u currency amount).db.users = db.users
    ∧ (buy sup oracle db u coinId symbol name amount currency).db.users = db.users
    ∧ (sell sup oracle db u coinId symbol amount currency).db.users = db.users
    ∧ (exchange ratesOpt db u fromC toC amount).db.users = db.users := by
  refine ⟨?_, ?_, ?_, ?_⟩ <;>
    · simp only [topup, buy, sell, exchange]
      repeat' split
      all_goals simp

end Ledger
